import Mathlib

/-!
Shallow embedding of the blackjack bot core (blackjack_bot.py) and proofs
about it.  Pure functions of the source become Lean functions; the mutable
game object, the balances dictionary and the channel→game registry become
explicit state passing; Python exceptions (IndexError on popping an empty
list, KeyError on a missing balance) become Option.
-/

/- Card model: rank ∈ {A,2..10,J,Q,K}, suit ∈ 4 symbols, as in _make_deck. -/

inductive Rank
  | ace | r2 | r3 | r4 | r5 | r6 | r7 | r8 | r9 | r10 | jack | queen | king
deriving DecidableEq

inductive Suit
  | spades | hearts | diamonds | clubs
deriving DecidableEq

abbrev Card := Rank × Suit

/- Points a rank contributes before ace reduction: digits literally,
J/Q/K = 10, A = 11 (the three branches of the loop body of hand_value). -/
def rankPoints : Rank → Nat
  | .ace => 11
  | .r2 => 2
  | .r3 => 3
  | .r4 => 4
  | .r5 => 5
  | .r6 => 6
  | .r7 => 7
  | .r8 => 8
  | .r9 => 9
  | .r10 => 10
  | .jack => 10
  | .queen => 10
  | .king => 10

/- One iteration of the accumulation loop in BlackjackGame.hand_value:
adds the rank points and counts an ace. -/
def countStep (acc : Nat × Nat) (c : Card) : Nat × Nat :=
  if c.1 = Rank.ace then (acc.1 + 11, acc.2 + 1) else (acc.1 + rankPoints c.1, acc.2)

/- The while loop of hand_value: while val > 21 and ace_count > 0, subtract
10 and consume one ace.  The ace count is the structural argument. -/
def reduceAces : Nat → Nat → Nat
  | val, 0 => val
  | val, a + 1 => if 21 < val then reduceAces (val - 10) a else val

/- BlackjackGame.hand_value. -/
def hand_value (hand : List Card) : Nat :=
  let acc := hand.foldl countStep (0, 0)
  reduceAces acc.1 acc.2

/- Modelled from the spec wording of §4.1 for the refinement proof:
sum the rank points of the hand. -/
def sumPoints : List Card → Nat
  | [] => 0
  | c :: t => rankPoints c.1 + sumPoints t

/- Modelled from the spec wording of §4.1: the number of aces in the hand. -/
def countAces : List Card → Nat
  | [] => 0
  | c :: t => (if c.1 = Rank.ace then 1 else 0) + countAces t

/- Modelled from the spec wording of §4.1: sum ranks (A = 11), then
repeatedly subtract 10 while the sum exceeds 21 and unreduced aces remain. -/
def specValue (hand : List Card) : Nat :=
  reduceAces (sumPoints hand) (countAces hand)

/- AutoSaveDict: the balances dictionary.  `store` is the insertion-ordered
key/value list of the underlying dict (keys are the player ids; the source
stores them as decimal strings of those ids, an injective encoding, so Nat
keys are used directly); `flushes` counts the scheduled async_save tasks. -/
structure AutoSaveDict where
  store : List (Nat × Int)
  flushes : Nat
deriving DecidableEq

/- dict lookup: the binding of the key (unique in a dict). -/
def lookupStore : List (Nat × Int) → Nat → Option Int
  | [], _ => none
  | kv :: rest, k => if kv.1 = k then some kv.2 else lookupStore rest k

def lookupBal (d : AutoSaveDict) (k : Nat) : Option Int :=
  lookupStore d.store k

/- In-place dict update of an existing key, keeping its position. -/
def replaceStore : List (Nat × Int) → Nat → Int → List (Nat × Int)
  | [], _, _ => []
  | kv :: rest, k, v => if kv.1 = k then (k, v) :: rest else kv :: replaceStore rest k v

/- AutoSaveDict.__setitem__: return unchanged (no flush) if the key is
present with the same value; otherwise store the value and schedule one
async_save. -/
def AutoSaveDict.setItem (d : AutoSaveDict) (k : Nat) (v : Int) : AutoSaveDict :=
  match lookupBal d k with
  | some v0 => if v0 = v then d else ⟨replaceStore d.store k v, d.flushes + 1⟩
  | none => ⟨d.store ++ [(k, v)], d.flushes + 1⟩

/- dict.get(key, default). -/
def AutoSaveDict.getD (d : AutoSaveDict) (k : Nat) (dflt : Int) : Int :=
  (lookupBal d k).getD dflt

/- balances[key] += amt: reads the current value (KeyError, i.e. none, when
the key is absent) and writes back through __setitem__. -/
def addBal (d : AutoSaveDict) (k : Nat) (amt : Int) : Option AutoSaveDict :=
  (lookupBal d k).map fun v0 => d.setItem k (v0 + amt)

/- PlayerState. -/
structure PlayerState where
  user_id : Nat
  hand : List Card
  busted : Bool
  stood : Bool
  bet : Nat
deriving DecidableEq

def PlayerState.is_done (p : PlayerState) : Bool :=
  p.busted || p.stood

/- BlackjackGame.  `deck` is the shoe list; cards are drawn from its tail
(Python list.pop()).  The asyncio lock is a no-op in this sequential model. -/
structure BlackjackGame where
  host_id : Nat
  players : List PlayerState
  dealer_hand : List Card
  deck : List Card
  game_active : Bool
  game_over : Bool
  pot : Nat
  dealt_cards : Bool
deriving DecidableEq

/- BlackjackGame._make_deck: [(r, s) for s in suits for r in ranks]. -/
def make_deck : List Card :=
  [Suit.spades, Suit.hearts, Suit.diamonds, Suit.clubs].flatMap fun s =>
    [Rank.ace, Rank.r2, Rank.r3, Rank.r4, Rank.r5, Rank.r6, Rank.r7, Rank.r8,
      Rank.r9, Rank.r10, Rank.jack, Rank.queen, Rank.king].map fun r => (r, s)

/- BlackjackGame.__init__.  random.shuffle is modelled by injecting the
already-shuffled deck. -/
def initGame (host_id : Nat) (deck : List Card) : BlackjackGame :=
  { host_id := host_id, players := [], dealer_hand := [], deck := deck,
    game_active := true, game_over := false, pot := 0, dealt_cards := false }

/- BlackjackGame.add_player: silently ignore a duplicate user id, otherwise
append the player and add the bet to the pot. -/
def add_player (g : BlackjackGame) (user_id bet : Nat) : BlackjackGame :=
  if g.players.any fun p => p.user_id == user_id then g
  else
    { g with
      players := g.players ++
        [{ user_id := user_id, hand := [], busted := false, stood := false, bet := bet }],
      pot := g.pot + bet }

/- The game-creation part of /blackjack_start: construct the game and add
the host as the first player. -/
def create_game (host_id : Nat) (deck : List Card) (bet : Nat) : BlackjackGame :=
  add_player (initGame host_id deck) host_id bet

/- deck.pop(): remove and return the LAST element; none models the
IndexError Python raises on an empty list. -/
def popCard : List Card → Option (Card × List Card)
  | [] => none
  | [c] => some (c, [])
  | c :: rest => (popCard rest).map fun x => (x.1, c :: x.2)

/- One pass of deal_initial_cards: for each player in join order, pop one
card from the deck into their hand.  none models the IndexError raised when
the deck runs out mid-pass. -/
def dealPass : List PlayerState → List Card → Option (List PlayerState × List Card)
  | [], deck => some ([], deck)
  | p :: rest, deck =>
    (popCard deck).bind fun cd =>
      (dealPass rest cd.2).map fun rd =>
        ({ p with hand := p.hand ++ [cd.1] } :: rd.1, rd.2)

/- BlackjackGame.deal_initial_cards: two player passes, then two cards into
the dealer hand; none models the IndexError on an exhausted deck. -/
def deal_initial_cards (g : BlackjackGame) : Option BlackjackGame :=
  (dealPass g.players g.deck).bind fun x =>
    (dealPass x.1 x.2).bind fun y =>
      (popCard y.2).bind fun z =>
        (popCard z.2).bind fun w =>
          some { g with dealt_cards := true, players := y.1,
                        dealer_hand := g.dealer_hand ++ [z.1, w.1], deck := w.2 }

/- Modelled from the spec wording of §4.3 and claim C6 for the refinement
proof: the draw sequence is the shoe read from its drawing end; pass one
card to each participant in join order, twice; then two cards to the
dealer. -/
def addPass (ps : List PlayerState) (cs : List Card) : List PlayerState :=
  List.zipWith (fun p c => { p with hand := p.hand ++ [c] }) ps cs

/- Modelled from the spec wording of §4.3 and claim C6: the whole deal,
phrased over the draw sequence `ds`. -/
def specDeal (g : BlackjackGame) : Option BlackjackGame :=
  let n := g.players.length
  let ds := g.deck.reverse
  if 2 * n + 2 ≤ g.deck.length then
    some { g with dealt_cards := true,
                  players := addPass (addPass g.players (ds.take n)) ((ds.drop n).take n),
                  dealer_hand := g.dealer_hand ++ (ds.drop (2 * n)).take 2,
                  deck := ((ds.drop (2 * n)).drop 2).reverse }
  else none

/- next(p for p in game.players if p.user_id == uid) followed by a mutation
of that player object: rewrite the first player with the given id. -/
def modifyById (uid : Nat) (f : PlayerState → PlayerState) : List PlayerState → List PlayerState
  | [] => []
  | p :: rest => if p.user_id == uid then f p :: rest else p :: modifyById uid f rest

/- BlackjackGame.draw_card_for_player: guarded no-op on an empty deck,
otherwise pop the last card into the player's hand. -/
def draw_card_for_player (g : BlackjackGame) (uid : Nat) : BlackjackGame :=
  match popCard g.deck with
  | none => g
  | some (c, deck') =>
    { g with deck := deck',
             players := modifyById uid (fun p => { p with hand := p.hand ++ [c] }) g.players }

/- The HitButton callback core: draw, then mark the player busted when the
new hand value exceeds 21. -/
def hit (g : BlackjackGame) (uid : Nat) : BlackjackGame :=
  let g1 := draw_card_for_player g uid
  { g1 with
    players := modifyById uid
      (fun p => if 21 < hand_value p.hand then { p with busted := true } else p) g1.players }

/- The StandButton callback core: mark the player stood. -/
def stand (g : BlackjackGame) (uid : Nat) : BlackjackGame :=
  { g with players := modifyById uid (fun p => { p with stood := true }) g.players }

/- BlackjackGame.dealer_draw: while hand_value(dealer_hand) < 17 and the
deck is non-empty, pop a card into the dealer hand.  The fuel equals the
deck length, which bounds the number of possible pops. -/
def dealer_draw_loop : Nat → List Card → List Card → List Card × List Card
  | 0, dh, deck => (dh, deck)
  | fuel + 1, dh, deck =>
    if hand_value dh < 17 then
      match popCard deck with
      | none => (dh, deck)
      | some (c, deck') => dealer_draw_loop fuel (dh ++ [c]) deck'
    else (dh, deck)

def dealer_draw (g : BlackjackGame) : BlackjackGame :=
  let r := dealer_draw_loop g.deck.length g.dealer_hand g.deck
  { g with dealer_hand := r.1, deck := r.2 }

def all_players_done (g : BlackjackGame) : Bool :=
  g.players.all fun p => p.is_done

/- BlackjackGame.end_game. -/
def end_game (g : BlackjackGame) : BlackjackGame :=
  { g with game_active := false, game_over := true }

/- The ledger credit one player receives in BlackjackGame.distribute_pot.
The dealer-bust test is hoisted out of the loop in the source; re-testing
it per player is equivalent. -/
def creditOne (dealer_val : Nat) (p : PlayerState) (bal : AutoSaveDict) : Option AutoSaveDict :=
  if 21 < dealer_val then
    if p.busted = false then addBal bal p.user_id (2 * (p.bet : Int)) else some bal
  else
    if p.busted = true then some bal
    else
      if dealer_val < hand_value p.hand then addBal bal p.user_id (2 * (p.bet : Int))
      else if hand_value p.hand < dealer_val then some bal
      else addBal bal p.user_id (p.bet : Int)

/- The for-loop of distribute_pot over the players in join order. -/
def payLoop (dealer_val : Nat) : List PlayerState → AutoSaveDict → Option AutoSaveDict
  | [], bal => some bal
  | p :: rest, bal => (creditOne dealer_val p bal).bind (payLoop dealer_val rest)

/- BlackjackGame.distribute_pot, acting on the balances dict; none models
the KeyError raised when a player id is absent from the dict. -/
def distribute_pot (g : BlackjackGame) (bal : AutoSaveDict) : Option AutoSaveDict :=
  payLoop (hand_value g.dealer_hand) g.players bal

/- The per-participant credit stated by claim C1 (and spec §4.3 step 3). -/
def payoutOf (dealer_val : Nat) (p : PlayerState) : Int :=
  if p.busted then 0
  else if 21 < dealer_val ∨ dealer_val < hand_value p.hand then 2 * (p.bet : Int)
  else if hand_value p.hand = dealer_val then (p.bet : Int)
  else 0

/- The channel-id → game registry (the module-level `games` dict). -/
abbrev Registry := List (Nat × BlackjackGame)

def regFind : Registry → Nat → Option BlackjackGame
  | [], _ => none
  | kv :: rest, ch => if kv.1 = ch then some kv.2 else regFind rest ch

/- dict.pop: drop the binding of ch (every one of them; a dict holds at
most one). -/
def regRemove : Registry → Nat → Registry
  | [], _ => []
  | kv :: rest, ch => if kv.1 = ch then regRemove rest ch else kv :: regRemove rest ch

/- process_end_game: pop the game from the registry (a no-op if absent),
run the dealer draws, distribute the pot, and flip the end flags.  Message
rendering is outside the model. -/
def process_end_game (reg : Registry) (ch : Nat) (g : BlackjackGame) (bal : AutoSaveDict) :
    Option (Registry × BlackjackGame × AutoSaveDict) :=
  let reg' := regRemove reg ch
  let g1 := dealer_draw g
  (distribute_pot g1 bal).map fun bal' => (reg', end_game g1, bal')

inductive EndMsg
  | noGameActive
  | notPartOfGame
  | gameOver
deriving DecidableEq

/- The /blackjack_end command: pops the game from the registry FIRST, then
checks authorization, then resolves via process_end_game. -/
def blackjack_end (reg : Registry) (bal : AutoSaveDict) (ch u : Nat) :
    Option (EndMsg × Registry × AutoSaveDict) :=
  match regFind reg ch with
  | none => some (.noGameActive, reg, bal)
  | some g =>
    if u ≠ g.host_id ∧ (g.players.any fun p => p.user_id == u) = false then
      some (.notPartOfGame, regRemove reg ch, bal)
    else
      (process_end_game (regRemove reg ch) ch g bal).map fun r =>
        (.gameOver, r.1, r.2.2)

inductive JoinMsg
  | betOutOfRange
  | notEnoughChips
  | joined
deriving DecidableEq

/- BetModal.on_submit after the integer parse: validate the range and the
balance, then debit the ledger and call add_player.  Note the debit happens
unconditionally before add_player's duplicate check. -/
def bet_modal_submit (g : BlackjackGame) (bal : AutoSaveDict) (user bet : Nat) :
    JoinMsg × BlackjackGame × AutoSaveDict :=
  if bet < 10 ∨ 500 < bet then (.betOutOfRange, g, bal)
  else
    let b := bal.getD user 1000
    if b < (bet : Int) then (.notEnoughChips, g, bal)
    else (.joined, add_player g user bet, bal.setItem user (b - (bet : Int)))

inductive ReplenishMsg
  | stillHaveChips
  | replenished
deriving DecidableEq

/- The /blackjack_replenish command: note the balance check reads
balances.get(user_id, 0), with default 0. -/
def blackjack_replenish (bal : AutoSaveDict) (user : Nat) : ReplenishMsg × AutoSaveDict :=
  if 0 < bal.getD user 0 then (.stillHaveChips, bal)
  else (.replenished, bal.setItem user 100)

/- Pot conservation predicate of claim C9. -/
def potInv (g : BlackjackGame) : Prop :=
  g.pot = (g.players.map fun p => p.bet).sum

/- Concrete fixtures used by the closed example theorems below. -/

def cardKS : Card := (Rank.king, Suit.spades)
def cardQH : Card := (Rank.queen, Suit.hearts)
def card9S : Card := (Rank.r9, Suit.spades)
def card9H : Card := (Rank.r9, Suit.hearts)
def card9D : Card := (Rank.r9, Suit.diamonds)
def card10H : Card := (Rank.r10, Suit.hearts)
def cardAC : Card := (Rank.ace, Suit.clubs)
def cardAS : Card := (Rank.ace, Suit.spades)
def cardAH : Card := (Rank.ace, Suit.hearts)
def card7D : Card := (Rank.r7, Suit.diamonds)
def card2D : Card := (Rank.r2, Suit.diamonds)
def card8D : Card := (Rank.r8, Suit.diamonds)
def card5S : Card := (Rank.r5, Suit.spades)
def card9C : Card := (Rank.r9, Suit.clubs)

def c10d : AutoSaveDict := ⟨[(1, 500)], 0⟩

/- Claim C1 fixtures: two stood players against a dealer 18. -/
def c1p1 : PlayerState := ⟨1, [cardKS, card9D], false, true, 100⟩
def c1p2 : PlayerState := ⟨2, [card5S, card9C], false, true, 50⟩

def c1g : BlackjackGame :=
  { host_id := 1, players := [c1p1, c1p2], dealer_hand := [card10H, card8D], deck := [],
    game_active := true, game_over := false, pot := 150, dealt_cards := true }

def c1bal : AutoSaveDict := ⟨[(1, 900), (2, 950)], 0⟩

def c1balAfter : AutoSaveDict := ⟨[(1, 1100), (2, 950)], 1⟩

/- Claim C2 fixtures: one stood player (19) against a dealer 18. -/
def c2g : BlackjackGame :=
  { host_id := 7, players := [⟨7, [cardKS, card9D], false, true, 100⟩],
    dealer_hand := [card10H, card8D], deck := [],
    game_active := true, game_over := false, pot := 100, dealt_cards := true }

def c2bal : AutoSaveDict := ⟨[(7, 900)], 0⟩

def c2run1 : Option (Registry × BlackjackGame × AutoSaveDict) :=
  process_end_game [(1, c2g)] 1 c2g c2bal

def c2run2 : Option (Registry × BlackjackGame × AutoSaveDict) :=
  c2run1.bind fun r => process_end_game r.1 1 r.2.1 r.2.2

def c2wreg : Registry := [(5, c2g)]

def c2wbalAfter : AutoSaveDict := ⟨[(7, 1100)], 1⟩

/- Claim C3 fixture: a lobby whose host (id 1) has already joined. -/
def c3g : BlackjackGame :=
  { host_id := 1, players := [⟨1, [], false, false, 100⟩], dealer_hand := [], deck := [],
    game_active := true, game_over := false, pot := 100, dealt_cards := false }

def c3bal : AutoSaveDict := ⟨[(1, 900)], 0⟩

/- Claim C4 fixture: a dealt game hosted by id 1, registered at channel 5. -/
def c4g : BlackjackGame :=
  { host_id := 1, players := [⟨1, [], false, false, 100⟩], dealer_hand := [], deck := [],
    game_active := true, game_over := false, pot := 100, dealt_cards := true }

def c4bal : AutoSaveDict := ⟨[(1, 900)], 0⟩

/- Claim C6 fixture: host A (id 1), joiner B (id 2), shoe ending
[9♠,10♥,A♣,7♦,K♠,9♥], the last listed card drawn first. -/
def c6g : BlackjackGame :=
  { host_id := 1,
    players := [⟨1, [], false, false, 100⟩, ⟨2, [], false, false, 50⟩],
    dealer_hand := [], deck := [card9S, card10H, cardAC, card7D, cardKS, card9H],
    game_active := true, game_over := false, pot := 150, dealt_cards := false }

/- What the deal actually produces on c6g. -/
def c6result : BlackjackGame :=
  { host_id := 1,
    players := [⟨1, [card9H, card7D], false, false, 100⟩,
                ⟨2, [cardKS, cardAC], false, false, 50⟩],
    dealer_hand := [card10H, card9S], deck := [],
    game_active := true, game_over := false, pot := 150, dealt_cards := true }

/- Claim C7 fixture: a lobby with one player and an already-empty shoe. -/
def c7g : BlackjackGame :=
  { host_id := 1, players := [⟨1, [], false, false, 100⟩], dealer_hand := [], deck := [],
    game_active := true, game_over := false, pot := 100, dealt_cards := false }

/- Claim C8 fixtures. -/
def c8balEmpty : AutoSaveDict := ⟨[], 0⟩

def c8balZero : AutoSaveDict := ⟨[(7, 0)], 0⟩

theorem foldl_countStep (hand : List Card) :
    ∀ v a : Nat, hand.foldl countStep (v, a) = (v + sumPoints hand, a + countAces hand) := by
  induction hand with
  | nil => intro v a; simp [sumPoints, countAces]
  | cons c t ih =>
      intro v a
      by_cases hc : c.1 = Rank.ace
      · simp [List.foldl_cons, countStep, hc, ih, sumPoints, countAces,
          rankPoints, Prod.mk.injEq]
        omega
      · simp only [List.foldl_cons, countStep, if_neg hc, ih, sumPoints, countAces, hc,
          if_false, Prod.mk.injEq]
        omega

theorem hand_value_eq_specValue (hand : List Card) : hand_value hand = specValue hand := by
  simp only [hand_value, specValue]
  rw [foldl_countStep hand 0 0]
  simp

/-- Claim C5: hand_value equals the spec algorithm — sum ranks with 2–10
literally, J/Q/K as 10, A as 11, then repeatedly subtract 10 while the sum
exceeds 21 and unreduced aces remain.  It is a total Lean function, hence
deterministic and side-effect free.  The four concrete values of the claim
hold: value([A,K]) = 21, value([A,A]) = 12, value([A,A,9]) = 21 and
value([K,Q,2]) = 22. -/
theorem hand_value_spec :
    (∀ hand : List Card, hand_value hand = specValue hand) ∧
    hand_value [cardAS, cardKS] = 21 ∧
    hand_value [cardAS, cardAH] = 12 ∧
    hand_value [cardAS, cardAH, card9D] = 21 ∧
    hand_value [cardKS, cardQH, card2D] = 22 :=
  ⟨hand_value_eq_specValue, by decide, by decide, by decide, by decide⟩

theorem lookup_replace_self (store : List (Nat × Int)) (k : Nat) (v : Int) :
    (lookupStore store k).isSome → lookupStore (replaceStore store k v) k = some v := by
  induction store with
  | nil => simp [lookupStore]
  | cons kv rest ih =>
      by_cases h : kv.1 = k
      · intro _; simp [replaceStore, h, lookupStore]
      · intro hs
        simp only [lookupStore, if_neg h] at hs
        simp only [replaceStore, if_neg h, lookupStore, if_neg h]
        exact ih hs

theorem lookup_replace_other (store : List (Nat × Int)) (k : Nat) (v : Int) (k' : Nat)
    (hne : k' ≠ k) : lookupStore (replaceStore store k v) k' = lookupStore store k' := by
  induction store with
  | nil => simp [replaceStore]
  | cons kv rest ih =>
      by_cases h : kv.1 = k
      · have hkk' : ¬(k = k') := fun hh => hne hh.symm
        have hkv : ¬(kv.1 = k') := by rw [h]; exact hkk'
        simp only [replaceStore, if_pos h, lookupStore, if_neg hkk', if_neg hkv]
      · by_cases h' : kv.1 = k'
        · simp [replaceStore, if_neg h, lookupStore, h', hne]
        · simp only [replaceStore, if_neg h, lookupStore, if_neg h']
          exact ih

theorem lookup_append_self (store : List (Nat × Int)) (k : Nat) (v : Int) :
    lookupStore store k = none → lookupStore (store ++ [(k, v)]) k = some v := by
  induction store with
  | nil => intro _; simp [lookupStore]
  | cons kv rest ih =>
      intro h
      by_cases hk : kv.1 = k
      · simp [lookupStore, hk] at h
      · simp only [lookupStore, if_neg hk] at h
        simp only [List.cons_append, lookupStore, if_neg hk]
        exact ih h

theorem lookup_append_other (store : List (Nat × Int)) (k : Nat) (v : Int) (k' : Nat)
    (hne : k' ≠ k) : lookupStore (store ++ [(k, v)]) k' = lookupStore store k' := by
  induction store with
  | nil =>
      have hkk' : ¬(k = k') := fun hh => hne hh.symm
      simp [lookupStore, hkk']
  | cons kv rest ih =>
      by_cases h' : kv.1 = k'
      · simp [lookupStore, h']
      · simp only [List.cons_append, lookupStore, if_neg h']
        exact ih

theorem lookup_setItem_self (d : AutoSaveDict) (k : Nat) (v : Int) :
    lookupBal (d.setItem k v) k = some v := by
  unfold AutoSaveDict.setItem
  cases h : lookupBal d k with
  | none =>
      have h' : lookupStore d.store k = none := h
      exact lookup_append_self d.store k v h'
  | some v0 =>
      by_cases hv : v0 = v
      · subst hv
        simp only [if_pos rfl]
        exact h
      · simp only [if_neg hv]
        have h' : lookupStore d.store k = some v0 := h
        exact lookup_replace_self d.store k v (by rw [h']; rfl)

theorem lookup_setItem_other (d : AutoSaveDict) (k : Nat) (v : Int) (k' : Nat)
    (hne : k' ≠ k) : lookupBal (d.setItem k v) k' = lookupBal d k' := by
  unfold AutoSaveDict.setItem
  cases h : lookupBal d k with
  | none => exact lookup_append_other d.store k v k' hne
  | some v0 =>
      by_cases hv : v0 = v
      · simp [hv]
      · simp only [if_neg hv]
        exact lookup_replace_other d.store k v k' hne

theorem setItem_same (d : AutoSaveDict) (k : Nat) (v : Int)
    (h : lookupBal d k = some v) : d.setItem k v = d := by
  unfold AutoSaveDict.setItem
  rw [h]
  simp

theorem flushes_setItem_changed (d : AutoSaveDict) (k : Nat) (v : Int)
    (h : lookupBal d k ≠ some v) : (d.setItem k v).flushes = d.flushes + 1 := by
  unfold AutoSaveDict.setItem
  cases hl : lookupBal d k with
  | none => rfl
  | some v0 =>
      have hv : v0 ≠ v := fun hh => h (hh ▸ hl)
      simp [hv]

theorem flushes_setItem_le (d : AutoSaveDict) (k : Nat) (v : Int) :
    (d.setItem k v).flushes ≤ d.flushes + 1 := by
  unfold AutoSaveDict.setItem
  cases hl : lookupBal d k with
  | none => simp
  | some v0 =>
      by_cases hv : v0 = v
      · simp [hv]
      · simp [hv]

/-- Claim C10: a write whose value equals the currently stored value is a
no-op (no flush is scheduled, the dict is unchanged); writing the same
value twice schedules at most one flush; and a write that changes the
stored value (or stores a fresh key) schedules exactly one flush. -/
theorem write_suppression :
    (∀ (d : AutoSaveDict) (k : Nat) (v : Int),
      lookupBal d k = some v → d.setItem k v = d) ∧
    (∀ (d : AutoSaveDict) (k : Nat) (v : Int),
      ((d.setItem k v).setItem k v).flushes ≤ d.flushes + 1) ∧
    (∀ (d : AutoSaveDict) (k : Nat) (v : Int),
      lookupBal d k ≠ some v → (d.setItem k v).flushes = d.flushes + 1) := by
  refine ⟨setItem_same, fun d k v => ?_, flushes_setItem_changed⟩
  rw [setItem_same (d.setItem k v) k v (lookup_setItem_self d k v)]
  exact flushes_setItem_le d k v

/-- Witness for claim C10 at a concrete dict: rewriting 500 over 500 is a
no-op, and writing 600 over 500 schedules one flush. -/
theorem write_suppression_witness :
    AutoSaveDict.setItem c10d 1 500 = c10d ∧
    (AutoSaveDict.setItem c10d 1 600).flushes = c10d.flushes + 1 :=
  ⟨write_suppression.1 c10d 1 500 (by decide), write_suppression.2.2 c10d 1 600 (by decide)⟩

theorem popCard_concat (l : List Card) (c : Card) : popCard (l ++ [c]) = some (c, l) := by
  induction l with
  | nil => rfl
  | cons a t ih =>
      cases t with
      | nil => rfl
      | cons b t' =>
          show popCard (a :: (b :: t' ++ [c])) = some (c, a :: b :: t')
          rw [show popCard (a :: (b :: t' ++ [c])) =
                (popCard (b :: t' ++ [c])).map (fun x => (x.1, a :: x.2)) from rfl]
          rw [ih]
          rfl

theorem dealPass_eq :
    ∀ (ps : List PlayerState) (deck : List Card), ps.length ≤ deck.length →
      dealPass ps deck =
        some (addPass ps (deck.reverse.take ps.length),
              (deck.reverse.drop ps.length).reverse) := by
  intro ps
  induction ps with
  | nil => intro deck _; simp [dealPass, addPass]
  | cons p rest ih =>
      intro deck hlen
      cases hrev : deck.reverse with
      | nil =>
          exfalso
          have hd : deck = [] := by simpa using congrArg List.reverse hrev
          rw [hd] at hlen
          simp at hlen
      | cons c t =>
          have hd : deck = t.reverse ++ [c] := by simpa using congrArg List.reverse hrev
          have hlt : rest.length ≤ t.reverse.length := by
            have h1 : deck.length = t.length + 1 := by rw [hd]; simp
            simp only [List.length_cons, List.length_reverse] at hlen ⊢
            omega
          rw [hd]
          simp only [dealPass, popCard_concat, Option.some_bind]
          rw [ih t.reverse hlt]
          simp only [Option.map_some', List.reverse_reverse, List.reverse_append,
            List.reverse_cons, List.reverse_nil, List.nil_append, List.cons_append,
            List.length_cons, List.take_succ_cons, List.drop_succ_cons]
          simp [addPass]

theorem dealPass_insufficient :
    ∀ (ps : List PlayerState) (deck : List Card), deck.length < ps.length →
      dealPass ps deck = none := by
  intro ps
  induction ps with
  | nil => intro deck h; exact absurd h (Nat.not_lt_zero _)
  | cons p rest ih =>
      intro deck hlen
      cases hrev : deck.reverse with
      | nil =>
          have hd : deck = [] := by simpa using congrArg List.reverse hrev
          rw [hd]
          simp [dealPass, popCard]
      | cons c t =>
          have hd : deck = t.reverse ++ [c] := by simpa using congrArg List.reverse hrev
          have hlt : t.reverse.length < rest.length := by
            have h1 : deck.length = t.length + 1 := by rw [hd]; simp
            simp only [List.length_cons, List.length_reverse] at hlen ⊢
            omega
          rw [hd]
          simp only [dealPass, popCard_concat, Option.some_bind]
          rw [ih t.reverse hlt]
          rfl

theorem dealPass_bets :
    ∀ (ps : List PlayerState) (deck : List Card) (ps' : List PlayerState) (deck' : List Card),
      dealPass ps deck = some (ps', deck') →
      ps'.map (fun p => p.bet) = ps.map (fun p => p.bet) := by
  intro ps
  induction ps with
  | nil =>
      intro deck ps' deck' h
      simp only [dealPass, Option.some.injEq, Prod.mk.injEq] at h
      rw [← h.1]
  | cons p rest ih =>
      intro deck ps' deck' h
      simp only [dealPass] at h
      cases hc : popCard deck with
      | none => rw [hc] at h; simp at h
      | some cd =>
          rw [hc] at h
          simp only [Option.some_bind] at h
          cases hr : dealPass rest cd.2 with
          | none => rw [hr] at h; simp at h
          | some rd =>
              rw [hr] at h
              simp only [Option.map_some', Option.some.injEq, Prod.mk.injEq] at h
              rw [← h.1]
              simp [ih cd.2 rd.1 rd.2 hr]

theorem deal_eq_specDeal (g : BlackjackGame) : deal_initial_cards g = specDeal g := by
  by_cases h : 2 * g.players.length + 2 ≤ g.deck.length
  · have h1 : g.players.length ≤ g.deck.length := by omega
    have e1 := dealPass_eq g.players g.deck h1
    have hlen1 : (addPass g.players (g.deck.reverse.take g.players.length)).length
        = g.players.length := by
      simp [addPass]
      omega
    have h2 : (addPass g.players (g.deck.reverse.take g.players.length)).length
        ≤ ((g.deck.reverse.drop g.players.length).reverse).length := by
      rw [hlen1]
      simp
      omega
    have e2 := dealPass_eq _ _ h2
    rw [hlen1] at e2
    simp only [List.reverse_reverse, List.drop_drop] at e2
    obtain ⟨c1, c2, t, hr2⟩ :
        ∃ c1 c2 t, g.deck.reverse.drop (g.players.length + g.players.length)
          = c1 :: c2 :: t := by
      have hlen : 2 ≤ (g.deck.reverse.drop (g.players.length + g.players.length)).length := by
        simp
        omega
      cases hx : g.deck.reverse.drop (g.players.length + g.players.length) with
      | nil => rw [hx] at hlen; simp at hlen
      | cons a s =>
          cases s with
          | nil => rw [hx] at hlen; simp at hlen
          | cons b t0 => exact ⟨a, b, t0, rfl⟩
    rw [hr2] at e2
    have hp1 : popCard ((c1 :: c2 :: t).reverse) = some (c1, (c2 :: t).reverse) := by
      rw [List.reverse_cons]
      exact popCard_concat _ _
    have hp2 : popCard ((c2 :: t).reverse) = some (c2, t.reverse) := by
      rw [List.reverse_cons]
      exact popCard_concat _ _
    simp only [deal_initial_cards, specDeal, e1, e2, hp1, hp2, Option.some_bind, if_pos h]
    rw [Nat.two_mul g.players.length, hr2]
    simp
  · have hs : specDeal g = none := by simp [specDeal, h]
    rw [hs]
    rcases Nat.lt_or_ge g.deck.length g.players.length with hc | hc
    · simp [deal_initial_cards, dealPass_insufficient g.players g.deck hc]
    · have e1 := dealPass_eq g.players g.deck hc
      have hlen1 : (addPass g.players (g.deck.reverse.take g.players.length)).length
          = g.players.length := by
        simp [addPass]
        omega
      rcases Nat.lt_or_ge (g.deck.length - g.players.length) g.players.length with hc2 | hc2
      · have hfail : ((g.deck.reverse.drop g.players.length).reverse).length <
            (addPass g.players (g.deck.reverse.take g.players.length)).length := by
          rw [hlen1]
          simp
          omega
        simp [deal_initial_cards, e1, dealPass_insufficient _ _ hfail]
      · have h2 : (addPass g.players (g.deck.reverse.take g.players.length)).length
            ≤ ((g.deck.reverse.drop g.players.length).reverse).length := by
          rw [hlen1]
          simp
          omega
        have e2 := dealPass_eq _ _ h2
        rw [hlen1] at e2
        simp only [List.reverse_reverse, List.drop_drop] at e2
        have hlen : (g.deck.reverse.drop (g.players.length + g.players.length)).length ≤ 1 := by
          simp
          omega
        cases hx : g.deck.reverse.drop (g.players.length + g.players.length) with
        | nil =>
            rw [hx] at e2
            simp [deal_initial_cards, e1, e2, popCard]
        | cons a s =>
            cases s with
            | cons b s' => rw [hx] at hlen; simp at hlen
            | nil =>
                rw [hx] at e2
                simp [deal_initial_cards, e1, e2, popCard]

/-- Claim C6 counterexample: on the shoe whose deterministic ordering ends
[…, 9♠,10♥, A♣,7♦, K♠,9♥] (the last listed card is drawn first, as
list.pop() draws from the tail), the deal yields A:[9♥,7♦] and B:[K♠,A♣]
(values 16 and 21), not A:[K♠,9♥] and B:[A♣,7♦] as the claim states; only
the dealer hand [10♥,9♠] matches the claim. -/
theorem deal_example_hands_differ :
    deal_initial_cards c6g = some c6result ∧
    c6result.players.map (fun p => p.hand) ≠ [[cardKS, card9H], [cardAC, card7D]] :=
  ⟨by decide, by decide⟩

/-- Claim C6 (amended): the deal proceeds in two passes — each pass draws
one card from the shoe's drawing end into each participant's hand in join
order — followed by two draws into the dealer's hand, as captured by the
refinement deal_initial_cards = specDeal; on the concrete shoe ending
[9♠,10♥,A♣,7♦,K♠,9♥] the deal yields A:[9♥,7♦], B:[K♠,A♣] and
dealer:[10♥,9♠] (dealer total 19). -/
theorem deal_two_pass_spec :
    (∀ g : BlackjackGame, deal_initial_cards g = specDeal g) ∧
    deal_initial_cards c6g = some c6result ∧
    hand_value c6result.dealer_hand = 19 :=
  ⟨deal_eq_specDeal, by decide, by decide⟩

/-- Claim C7 counterexample: on a session with one participant and an empty
shoe, the initial deal does not complete normally with hands and shoe
unchanged — it fails (none models the IndexError deck.pop() raises, since
deal_initial_cards pops without the emptiness guard the other draw sites
have). -/
theorem empty_shoe_initial_deal_errors :
    deal_initial_cards c7g = none ∧ c7g.deck = [] ∧ c7g.players ≠ [] :=
  ⟨rfl, rfl, by decide⟩

/-- Claim C7 (amended): a draw from an empty shoe during a participant hit
(draw_card_for_player) or during the dealer's resolution draws (dealer_draw)
is a silent no-op that leaves the hand and the shoe unchanged and completes
normally; the unguarded initial deal is the exception. -/
theorem empty_shoe_draw_noop :
    (∀ (g : BlackjackGame) (uid : Nat), g.deck = [] → draw_card_for_player g uid = g) ∧
    (∀ g : BlackjackGame, g.deck = [] → dealer_draw g = g) := by
  constructor
  · intro g uid hdeck
    unfold draw_card_for_player
    rw [hdeck]
    rfl
  · intro g hdeck
    have hloop : dealer_draw_loop g.deck.length g.dealer_hand g.deck
        = (g.dealer_hand, g.deck) := by
      rw [hdeck]
      rfl
    simp [dealer_draw, hloop]

/-- Witness for claim C7 at a concrete empty-shoe game. -/
theorem empty_shoe_draw_noop_witness :
    draw_card_for_player c7g 1 = c7g ∧ dealer_draw c7g = c7g :=
  ⟨empty_shoe_draw_noop.1 c7g 1 rfl, empty_shoe_draw_noop.2 c7g rfl⟩

theorem addBal_eq (bal : AutoSaveDict) (k : Nat) (amt : Int) (v0 : Int)
    (h : lookupBal bal k = some v0) : addBal bal k amt = some (bal.setItem k (v0 + amt)) := by
  simp [addBal, h]

theorem creditOne_eq (dv : Nat) (p : PlayerState) (bal : AutoSaveDict) (v0 : Int)
    (h : lookupBal bal p.user_id = some v0) :
    creditOne dv p bal = some (bal.setItem p.user_id (v0 + payoutOf dv p)) := by
  have hz : bal.setItem p.user_id v0 = bal :=
    setItem_same bal p.user_id v0 h
  by_cases hb : p.busted
  · by_cases hdv : 21 < dv <;>
      simp [creditOne, payoutOf, hb, hdv, hz]
  · by_cases hdv : 21 < dv
    · simp [creditOne, payoutOf, hb, hdv, addBal_eq bal p.user_id _ v0 h]
    · by_cases hgt : dv < hand_value p.hand
      · simp [creditOne, payoutOf, hb, hdv, hgt, addBal_eq bal p.user_id _ v0 h]
      · by_cases hlt : hand_value p.hand < dv
        · have hne : ¬(hand_value p.hand = dv) := by omega
          simp [creditOne, payoutOf, hb, hdv, hgt, hlt, hne, hz]
        · have heq : hand_value p.hand = dv := by omega
          simp [creditOne, payoutOf, hb, hdv, hgt, hlt, heq,
            addBal_eq bal p.user_id _ v0 h]

theorem payLoop_spec (dv : Nat) :
    ∀ (ps : List PlayerState) (bal bal' : AutoSaveDict),
      (ps.map fun p => p.user_id).Nodup →
      (∀ p ∈ ps, (lookupBal bal p.user_id).isSome) →
      payLoop dv ps bal = some bal' →
      (∀ p ∈ ps, lookupBal bal' p.user_id
          = (lookupBal bal p.user_id).map fun v0 => v0 + payoutOf dv p) ∧
      (∀ k : Nat, k ∉ ps.map (fun p => p.user_id) →
          lookupBal bal' k = lookupBal bal k) := by
  intro ps
  induction ps with
  | nil =>
      intro bal bal' _ _ hrun
      simp only [payLoop, Option.some.injEq] at hrun
      constructor
      · intro p hp
        simp at hp
      · intro k _
        rw [← hrun]
  | cons p rest ih =>
      intro bal bal' hnodup hsome hrun
      obtain ⟨v0, hv0⟩ : ∃ v0, lookupBal bal p.user_id = some v0 := by
        have hh := hsome p (List.mem_cons_self p rest)
        cases hl : lookupBal bal p.user_id with
        | none => rw [hl] at hh; simp at hh
        | some w => exact ⟨w, rfl⟩
      simp only [payLoop] at hrun
      rw [creditOne_eq dv p bal v0 hv0] at hrun
      simp only [Option.some_bind] at hrun
      have hnotin : p.user_id ∉ rest.map (fun q => q.user_id) :=
        (List.nodup_cons.mp hnodup).1
      have hnodup2 := (List.nodup_cons.mp hnodup).2
      have hsome2 : ∀ q ∈ rest,
          (lookupBal (bal.setItem p.user_id (v0 + payoutOf dv p)) q.user_id).isSome := by
        intro q hq
        have hqe : q.user_id ≠ p.user_id := by
          intro he
          exact hnotin (he ▸ List.mem_map_of_mem (fun r => r.user_id) hq)
        rw [lookup_setItem_other bal p.user_id _ q.user_id hqe]
        exact hsome q (List.mem_cons_of_mem p hq)
      obtain ⟨ihA, ihB⟩ := ih (bal.setItem p.user_id (v0 + payoutOf dv p)) bal' hnodup2 hsome2 hrun
      constructor
      · intro q hq
        rcases List.mem_cons.mp hq with hq | hq
        · subst hq
          rw [ihB q.user_id hnotin, lookup_setItem_self, hv0]
          rfl
        · have hqe : q.user_id ≠ p.user_id := by
            intro he
            exact hnotin (he ▸ List.mem_map_of_mem (fun r => r.user_id) hq)
          rw [ihA q hq, lookup_setItem_other bal p.user_id _ q.user_id hqe]
      · intro k hk
        simp only [List.map_cons, List.mem_cons, not_or] at hk
        rw [ihB k hk.2, lookup_setItem_other bal p.user_id _ k hk.1]

/-- Claim C1: at resolution, with D the dealer's final value, a participant
with wager W and hand value P receives exactly: 0 if busted; 2W if D > 21
or (non-bust and P > D); 1W if non-bust and P = D; 0 if non-bust and
P < D ≤ 21 (the payoutOf case analysis); and no other ledger entry is
mutated during the payout. -/
theorem payout_correct (g : BlackjackGame) (bal balAfter : AutoSaveDict)
    (hnodup : (g.players.map fun p => p.user_id).Nodup)
    (hsome : ∀ p ∈ g.players, (lookupBal bal p.user_id).isSome)
    (hrun : distribute_pot g bal = some balAfter) :
    (∀ p ∈ g.players, lookupBal balAfter p.user_id
        = (lookupBal bal p.user_id).map fun v0 =>
            v0 + payoutOf (hand_value g.dealer_hand) p) ∧
    (∀ k : Nat, k ∉ g.players.map (fun p => p.user_id) →
        lookupBal balAfter k = lookupBal bal k) :=
  payLoop_spec (hand_value g.dealer_hand) g.players bal balAfter hnodup hsome hrun

/-- Witness for claim C1: in the concrete two-player game c1g (dealer 18,
winner 19 with wager 100), the winner's balance moves 900 → 1100, exactly
the stake plus even money. -/
theorem payout_correct_witness :
    lookupBal c1balAfter c1p1.user_id
      = (lookupBal c1bal c1p1.user_id).map fun v0 =>
          v0 + payoutOf (hand_value c1g.dealer_hand) c1p1 :=
  (payout_correct c1g c1bal c1balAfter (by decide) (by decide) (by decide)).1
    c1p1 (by decide)

theorem regFind_regRemove (reg : Registry) (ch : Nat) :
    regFind (regRemove reg ch) ch = none := by
  induction reg with
  | nil => rfl
  | cons kv rest ih =>
      by_cases h : kv.1 = ch
      · simp [regRemove, h, ih]
      · simp [regRemove, h, regFind, ih]

/-- Claim C2 counterexample: the game object carries no resolved guard
(game_over is set but never consulted), so a second resolution of the same
session — reachable when /blackjack_end races an act-triggered
auto-resolution, since blackjack_end never takes the game lock — pays the
participant again: after one process_end_game the winner holds 1100, after
a second run on the very same game the ledger moves again to 1300 instead
of rejecting with an already-resolved error. -/
theorem double_resolution_pays_twice :
    c2run1.map (fun r => lookupBal r.2.2 7) = some (some 1100) ∧
    c2run2.map (fun r => lookupBal r.2.2 7) = some (some 1300) ∧
    c2run2.map (fun r => lookupBal r.2.2 7) ≠ c2run1.map (fun r => lookupBal r.2.2 7) :=
  ⟨by decide, by decide, by decide⟩

/-- Claim C2 (amended): resolution through the registry runs at most once
for sequential attempts: a successful /blackjack_end removes the session
from the registry, so a repeated /blackjack_end on the same channel is
rejected with the "no game is active" error (not an "already resolved"
error, which does not exist in the code) and issues no ledger mutation. -/
theorem second_force_end_rejected (reg : Registry) (bal : AutoSaveDict) (ch u : Nat)
    (reg' : Registry) (balAfter : AutoSaveDict) (u2 : Nat)
    (h : blackjack_end reg bal ch u = some (EndMsg.gameOver, reg', balAfter)) :
    blackjack_end reg' balAfter ch u2 = some (EndMsg.noGameActive, reg', balAfter) := by
  have hnone : regFind reg' ch = none := by
    unfold blackjack_end at h
    cases hf : regFind reg ch with
    | none => rw [hf] at h; simp at h
    | some g =>
        rw [hf] at h
        dsimp only at h
        by_cases ha : u ≠ g.host_id ∧ (g.players.any fun p => p.user_id == u) = false
        · rw [if_pos ha] at h; simp at h
        · rw [if_neg ha] at h
          unfold process_end_game at h
          dsimp only at h
          cases hd : distribute_pot (dealer_draw g) bal with
          | none => rw [hd] at h; simp at h
          | some b2 =>
              rw [hd] at h
              simp only [Option.map_some', Option.some.injEq, Prod.mk.injEq,
                true_and] at h
              rw [← h.1]
              exact regFind_regRemove (regRemove reg ch) ch
  unfold blackjack_end
  rw [hnone]

/-- Witness for claim C2: the host resolves the concrete game c2g at
channel 5; a second /blackjack_end by user 9 on the now-empty registry is
rejected with noGameActive and the ledger stays at 1100. -/
theorem second_force_end_rejected_witness :
    blackjack_end [] c2wbalAfter 5 9 = some (EndMsg.noGameActive, [], c2wbalAfter) :=
  second_force_end_rejected c2wreg c2bal 5 7 [] c2wbalAfter 9 (by decide)

/-- Claim C3 (code bug): a join request by an identity already in the
session (here the host, id 1, re-submitting the bet modal with 50) is NOT
left without effect: the code debits the ledger (900 → 850, one flush)
before add_player silently drops the duplicate, and still reports the
joined message; the game itself (players, pot) is unchanged. -/
theorem duplicate_join_debits_ledger :
    bet_modal_submit c3g c3bal 1 50
      = (JoinMsg.joined, c3g, ⟨[(1, 850)], 1⟩) := by
  decide

/-- Claim C4 (code bug): a forceEnd by user 999, neither host nor
participant of the game registered at channel 5, returns the authorization
error but does NOT leave the session registered: blackjack_end pops the
game from the registry before the authorization check and never reinstates
it, so the registry comes back empty (the ledger is untouched). -/
theorem stranger_force_end_unregisters :
    regFind [(5, c4g)] 5 = some c4g ∧
    blackjack_end [(5, c4g)] c4bal 5 999
      = some (EndMsg.notPartOfGame, [], c4bal) :=
  ⟨by decide, by decide⟩

/-- Claim C8 counterexample: for an id absent from the ledger the balance
as defined by get (default 1000) is 1000 ≠ 0, yet blackjack_replenish
succeeds and records 100, because its check reads balances.get(id, 0) with
default 0. -/
theorem replenish_absent_id_succeeds :
    blackjack_replenish c8balEmpty 42 = (ReplenishMsg.replenished, ⟨[(42, 100)], 1⟩) ∧
    AutoSaveDict.getD c8balEmpty 42 1000 = 1000 ∧
    AutoSaveDict.getD c8balEmpty 42 1000 ≠ 0 :=
  ⟨by decide, by decide, by decide⟩

/-- Claim C8 (amended): blackjack_replenish succeeds, setting the balance
to exactly 100, if and only if balances.get(id, 0) ≤ 0 — that is, iff the
id is absent from the ledger or its stored balance is non-positive;
otherwise it reports still-solvent and leaves the ledger unchanged. -/
theorem replenish_spec (bal : AutoSaveDict) (u : Nat) :
    ((blackjack_replenish bal u).1 = ReplenishMsg.replenished ↔ bal.getD u 0 ≤ 0) ∧
    (bal.getD u 0 ≤ 0 → (blackjack_replenish bal u).2 = bal.setItem u 100) ∧
    (0 < bal.getD u 0 → (blackjack_replenish bal u).2 = bal) := by
  by_cases h : 0 < bal.getD u 0
  · refine ⟨?_, ?_, ?_⟩
    · simp [blackjack_replenish, h]
    · intro hle
      exact absurd h (by omega)
    · intro _
      simp [blackjack_replenish, h]
  · refine ⟨?_, ?_, ?_⟩
    · simp [blackjack_replenish, h]
      omega
    · intro _
      simp [blackjack_replenish, h]
    · intro hlt
      exact absurd hlt h

/-- Witness for claim C8: on a ledger storing balance 0 for id 7,
replenish succeeds and writes 100. -/
theorem replenish_spec_witness :
    (blackjack_replenish c8balZero 7).2 = AutoSaveDict.setItem c8balZero 7 100 :=
  (replenish_spec c8balZero 7).2.1 (by decide)

theorem modifyById_bets (uid : Nat) (f : PlayerState → PlayerState)
    (hf : ∀ p, (f p).bet = p.bet) :
    ∀ ps : List PlayerState,
      (modifyById uid f ps).map (fun p => p.bet) = ps.map (fun p => p.bet) := by
  intro ps
  induction ps with
  | nil => rfl
  | cons p rest ih =>
      by_cases h : (p.user_id == uid) = true
      · simp [modifyById, h, hf]
      · simp [modifyById, h, ih]

/-- Claim C9: the pot equals the sum of the participants' wagers at
creation and this equality is preserved by game creation, join
(add_player), the deal, hit and stand — i.e. at every point from creation
until the start of resolution. -/
theorem pot_invariant_preserved :
    (∀ (host : Nat) (deck : List Card), potInv (initGame host deck)) ∧
    (∀ (host : Nat) (deck : List Card) (bet : Nat), potInv (create_game host deck bet)) ∧
    (∀ (g : BlackjackGame) (u b : Nat), potInv g → potInv (add_player g u b)) ∧
    (∀ (g gd : BlackjackGame), deal_initial_cards g = some gd → potInv g → potInv gd) ∧
    (∀ (g : BlackjackGame) (u : Nat), potInv g → potInv (hit g u)) ∧
    (∀ (g : BlackjackGame) (u : Nat), potInv g → potInv (stand g u)) := by
  have hadd : ∀ (g : BlackjackGame) (u b : Nat), potInv g → potInv (add_player g u b) := by
    intro g u b hinv
    unfold add_player
    by_cases h : (g.players.any fun p => p.user_id == u) = true
    · simp [h, hinv]
    · simp only [h, if_false, Bool.false_eq_true]
      unfold potInv at hinv ⊢
      simp [hinv]
  refine ⟨?_, ?_, hadd, ?_, ?_, ?_⟩
  · intro host deck
    simp [potInv, initGame]
  · intro host deck bet
    exact hadd (initGame host deck) host bet (by simp [potInv, initGame])
  · intro g gd hdeal hinv
    unfold deal_initial_cards at hdeal
    cases h1 : dealPass g.players g.deck with
    | none => rw [h1] at hdeal; simp at hdeal
    | some x =>
        rw [h1] at hdeal
        simp only [Option.some_bind] at hdeal
        cases h2 : dealPass x.1 x.2 with
        | none => rw [h2] at hdeal; simp at hdeal
        | some y =>
            rw [h2] at hdeal
            simp only [Option.some_bind] at hdeal
            cases h3 : popCard y.2 with
            | none => rw [h3] at hdeal; simp at hdeal
            | some z =>
                rw [h3] at hdeal
                simp only [Option.some_bind] at hdeal
                cases h4 : popCard z.2 with
                | none => rw [h4] at hdeal; simp at hdeal
                | some w =>
                    rw [h4] at hdeal
                    simp only [Option.some_bind, Option.some.injEq] at hdeal
                    have hb1 := dealPass_bets g.players g.deck x.1 x.2 h1
                    have hb2 := dealPass_bets x.1 x.2 y.1 y.2 h2
                    rw [← hdeal]
                    unfold potInv at hinv ⊢
                    dsimp only
                    rw [hb2, hb1]
                    exact hinv
  · intro g u hinv
    have hf2 : ∀ p : PlayerState,
        ((fun q => if 21 < hand_value q.hand then { q with busted := true } else q) p).bet
          = p.bet := by
      intro p
      by_cases hb : 21 < hand_value p.hand <;> simp [hb]
    unfold hit draw_card_for_player
    cases hc : popCard g.deck with
    | none =>
        dsimp only
        unfold potInv at hinv ⊢
        simpa [modifyById_bets u _ hf2] using hinv
    | some cd =>
        dsimp only
        unfold potInv at hinv ⊢
        simpa [modifyById_bets u _ hf2,
          modifyById_bets u (fun q => { q with hand := q.hand ++ [cd.1] }) (fun q => rfl)]
          using hinv
  · intro g u hinv
    unfold stand
    unfold potInv at hinv ⊢
    simpa [modifyById_bets u (fun q => { q with stood := true }) (fun q => rfl)] using hinv

/-- Witness for claim C9: a freshly created game for host 1 with wager 100
on which the host stands still satisfies pot = sum of wagers. -/
theorem pot_invariant_preserved_witness :
    potInv (stand (create_game 1 [] 100) 1) :=
  pot_invariant_preserved.2.2.2.2.2 (create_game 1 [] 100) 1 (by rfl)
